import Mathlib

/-!
A verification development for the candlestick pattern engine of
`analysis.py`: per-bar feature derivation (body and wick geometry,
expanding percentile bands of the body, asymmetric rolling local
extrema) and the boolean multi-bar pattern rules evaluated over the
featured series.

Prices are modelled as rationals.  A data-frame row becomes a `Bar`
(raw columns `Open`, `High`, `Low`, `Price`) or a `FeaturedBar` (raw
plus derived columns); a series is a list of bars in date order,
addressed by 0-based row index.  A pattern method's result — the rows
kept by `self.data.loc[mask]` — is modelled as the list of matched row
indices.
-/

/-- A raw OHLC bar: data-frame columns `Open`, `High`, `Low`, `Price` (the close). -/
structure Bar where
  Open : ℚ
  High : ℚ
  Low : ℚ
  Price : ℚ
deriving DecidableEq

/-- Default bar used only for out-of-range `getD` access. -/
def dBar : Bar := ⟨0, 0, 0, 0⟩

/-- A featured bar: the raw columns plus the derived columns added by
`Strategy.analyse_pattern` (`Body`, `L-Wick`, `U-Wick`, `25 Body`, `50 Body`,
`Min`, `Max`). -/
structure FeaturedBar where
  Open : ℚ
  High : ℚ
  Low : ℚ
  Price : ℚ
  Body : ℚ
  LWick : ℚ
  UWick : ℚ
  q25Body : ℚ
  q50Body : ℚ
  Min : Bool
  Max : Bool
deriving DecidableEq

/-- Default featured bar used only for out-of-range `getD` access. -/
def dFeat : FeaturedBar := ⟨0, 0, 0, 0, 0, 0, 0, 0, 0, false, false⟩

/-- The raw columns of a featured bar (what a second feature-derivation run reads). -/
def toBar (b : FeaturedBar) : Bar := ⟨b.Open, b.High, b.Low, b.Price⟩

/-- `Body = abs(Open - Price)` (line 82). -/
def mkBody (b : Bar) : ℚ := |b.Open - b.Price|

/-- `L-Wick = min(Open, Price) - Low` (line 84). -/
def mkLWick (b : Bar) : ℚ := min b.Open b.Price - b.Low

/-- `U-Wick = High - max(Open, Price)` (line 86). -/
def mkUWick (b : Bar) : ℚ := b.High - max b.Open b.Price

/-- Linear interpolation at rank position `h` on an already-sorted list:
`a[k] + (h - k) * (a[k+1] - a[k])` with `k = ⌊h⌋`, the upper index clamped
to the last element. -/
def interpAt (a : List ℚ) (h : ℚ) : ℚ :=
  let k : ℕ := ⌊h⌋.toNat
  let ak := a.getD k 0
  ak + (h - (k : ℚ)) * (a.getD (k + 1) ak - ak)

/-- Modelled from the spec: `expanding_quantiles` lives in the absent `data.py`;
per §4.1 the p-quantile of a window is obtained by sorting it ascending and
interpolating linearly at rank position `(n-1)·p`. -/
def linQuantile (xs : List ℚ) (p : ℚ) : ℚ :=
  let a := List.insertionSort (· ≤ ·) xs
  interpAt a (p * ((a.length : ℚ) - 1))

/-- Expanding (prefix-window) quantile of a column at row `i`: the `p`-quantile
of the values at rows `0..i` inclusive. -/
def expandingQuantile (xs : List ℚ) (p : ℚ) (i : ℕ) : ℚ :=
  linQuantile (xs.take (i + 1)) p

/-- Modelled from the spec: `asym_rolling_minmax` lives in the absent `data.py`;
per §4.2 row `i` carries the minimum (resp. maximum) of the closes over the
window `[i - look_back, i + look_forward]` when that window lies fully inside
the series, and no value (pandas NaN) otherwise. -/
def asymRollingMinmax (closes : List ℚ) (look_back look_forward : ℕ) (findMin : Bool) (i : ℕ) : Option ℚ :=
  if look_back ≤ i ∧ i + look_forward < closes.length then
    let w := (closes.drop (i - look_back)).take (look_back + look_forward + 1)
    if findMin then w.min? else w.max?
  else none

/-- The `Min` / `Max` column of `analyse_pattern` (lines 94-95):
`Price == asym_rolling_minmax(...)`.  A row whose window is incomplete has no
window value (NaN), and the equality comparison is then false. -/
def localFlag (closes : List ℚ) (look_back look_forward : ℕ) (findMin : Bool) (i : ℕ) : Bool :=
  match asymRollingMinmax closes look_back look_forward findMin i with
  | some m => decide (closes.getD i 0 = m)
  | none => false

/-- Row `i` of the featured series: the derived columns added by
`Strategy.analyse_pattern` (lines 82-95) before dispatch, with the extremum
window parameters `look_back = 3`, `look_forward = 1`. -/
def featureAt (s : List Bar) (i : ℕ) : FeaturedBar :=
  let b := s.getD i dBar
  let bodies := s.map mkBody
  let closes := s.map Bar.Price
  { Open := b.Open
    High := b.High
    Low := b.Low
    Price := b.Price
    Body := mkBody b
    LWick := mkLWick b
    UWick := mkUWick b
    q25Body := expandingQuantile bodies (1/4) i
    q50Body := expandingQuantile bodies (1/2) i
    Min := localFlag closes 3 1 true i
    Max := localFlag closes 3 1 false i }

/-- The whole featured series. -/
def featurize (s : List Bar) : List FeaturedBar :=
  (List.range s.length).map (featureAt s)

/-- `Strategy.hammer` row mask (lines 136-142): lower wick at least 150% of
body, body within the expanding 25th-percentile band, local minimum. -/
def hammerMask (s : List Bar) (i : ℕ) : Bool :=
  let c0 := featureAt s i
  decide ((3/2 : ℚ) * c0.Body ≤ c0.LWick) && decide (c0.Body ≤ c0.q25Body) && c0.Min

/-- `Strategy.hammer`: the matched row indices (rows kept by `self.data.loc[mask]`). -/
def hammer (s : List Bar) : List ℕ :=
  (List.range s.length).filter (hammerMask s)

/-- `Strategy.inv_hammer` row mask (lines 165-171). -/
def invHammerMask (s : List Bar) (i : ℕ) : Bool :=
  let c0 := featureAt s i
  decide ((1/4 : ℚ) * c0.Body ≥ c0.LWick) && decide ((3/2 : ℚ) * c0.Body ≤ c0.UWick) && c0.Min

/-- `Strategy.inv_hammer`: the matched row indices. -/
def inv_hammer (s : List Bar) : List ℕ :=
  (List.range s.length).filter (invHammerMask s)

/-- `Strategy.bull_engulf` row mask (lines 193-201).  `shift(1)` comparisons
are false on row 0 (NaN operand).  Note that the `50 Body` band is read
UNSHIFTED: the previous bar's body is compared against the CURRENT row's band. -/
def bullEngulfMask (s : List Bar) (i : ℕ) : Bool :=
  if 1 ≤ i then
    let c0 := featureAt s i
    let c1 := featureAt s (i - 1)
    decide (c0.Price > c0.Open) && decide (c1.Open > c1.Price) &&
      decide (c1.Body ≤ c0.q50Body) &&
      decide (c0.Open < c1.Price) && decide (c0.Price > c1.Open)
  else false

/-- `Strategy.bull_engulf`: the matched row indices. -/
def bull_engulf (s : List Bar) : List ℕ :=
  (List.range s.length).filter (bullEngulfMask s)

/-- `Strategy.piercing` row mask (lines 224-235).  Both long-body tests and the
gap-down test read the `50 Body` / `25 Body` bands UNSHIFTED (current row). -/
def piercingMask (s : List Bar) (i : ℕ) : Bool :=
  if 1 ≤ i then
    let c0 := featureAt s i
    let c1 := featureAt s (i - 1)
    decide (c0.Price > c0.Open) && decide (c1.Open > c1.Price) &&
      decide (c1.Body ≥ c0.q50Body) && decide (c0.Body ≥ c0.q50Body) &&
      decide (c1.Price - c0.Open ≥ c0.q25Body) &&
      decide (c0.Price ≥ c1.Price + c1.Body / 2)
  else false

/-- `Strategy.piercing`: the matched row indices. -/
def piercing (s : List Bar) : List ℕ :=
  (List.range s.length).filter (piercingMask s)

/-- `Strategy.morning` row mask (lines 258-267).  The long-body and short-body
tests read the `50 Body` / `25 Body` bands UNSHIFTED (current row). -/
def morningMask (s : List Bar) (i : ℕ) : Bool :=
  if 2 ≤ i then
    let c0 := featureAt s i
    let c1 := featureAt s (i - 1)
    let c2 := featureAt s (i - 2)
    decide (c0.Price > c0.Open) && decide (c2.Open > c2.Price) &&
      decide (c2.Body ≥ c0.q50Body) && decide (c0.Body ≥ c0.q50Body) &&
      decide (c1.Body ≤ c0.q25Body)
  else false

/-- `Strategy.morning`: the matched row indices. -/
def morning (s : List Bar) : List ℕ :=
  (List.range s.length).filter (morningMask s)

/-- `Strategy.soldiers` row mask (lines 289-297). -/
def soldiersMask (s : List Bar) (i : ℕ) : Bool :=
  if 2 ≤ i then
    let c0 := featureAt s i
    let c1 := featureAt s (i - 1)
    let c2 := featureAt s (i - 2)
    (decide (c0.Price > c0.Open) && decide (c1.Price > c1.Open) && decide (c2.Price > c2.Open)) &&
      (decide ((1/4 : ℚ) * c0.Body ≥ c0.UWick) && decide ((1/4 : ℚ) * c1.Body ≥ c1.UWick) &&
        decide ((1/4 : ℚ) * c2.Body ≥ c2.UWick)) &&
      (decide ((1/4 : ℚ) * c0.Body ≥ c0.LWick) && decide ((1/4 : ℚ) * c1.Body ≥ c1.LWick) &&
        decide ((1/4 : ℚ) * c2.Body ≥ c2.LWick)) &&
      (decide (c0.Price > c1.Price) && decide (c1.Price > c2.Price)) &&
      (decide (c0.Open > c1.Open) && decide (c1.Open > c2.Open))
  else false

/-- `Strategy.soldiers`: the matched row indices. -/
def soldiers (s : List Bar) : List ℕ :=
  (List.range s.length).filter (soldiersMask s)

/-- `Strategy.hanging` row mask (lines 319-325): shape of the hammer mask with
the `Max` flag in place of `Min`. -/
def hangingMask (s : List Bar) (i : ℕ) : Bool :=
  let c0 := featureAt s i
  decide ((3/2 : ℚ) * c0.Body ≤ c0.LWick) && decide (c0.Body ≤ c0.q25Body) && c0.Max

/-- `Strategy.hanging`: the matched row indices. -/
def hanging (s : List Bar) : List ℕ :=
  (List.range s.length).filter (hangingMask s)

/-- `Strategy.shooting` row mask (lines 347-355): shape of the inverse-hammer
mask with the `Max` flag in place of `Min`, plus a red body. -/
def shootingMask (s : List Bar) (i : ℕ) : Bool :=
  let c0 := featureAt s i
  decide ((1/4 : ℚ) * c0.Body ≥ c0.LWick) && decide ((3/2 : ℚ) * c0.Body ≤ c0.UWick) &&
    c0.Max && decide (c0.Open > c0.Price)

/-- `Strategy.shooting`: the matched row indices. -/
def shooting (s : List Bar) : List ℕ :=
  (List.range s.length).filter (shootingMask s)

/-- The catalogue of declared pattern names (the `patterns` list, lines 14-21). -/
def patterns : List String :=
  ["hammer", "inv_hammer", "bull_engulf", "piercing", "morning", "soldiers",
    "hanging", "shooting", "bear_engulf", "evening", "crows", "cloud",
    "doji", "spinning", "falling", "rising"]

/-- The eight pattern kinds with an implemented rule. -/
def implementedPatterns : List String :=
  ["hammer", "inv_hammer", "bull_engulf", "piercing", "morning", "soldiers",
    "hanging", "shooting"]

/-- The error kinds surfaced by pattern evaluation. -/
inductive PatternError where
  | unrecognizedPattern
deriving DecidableEq

/-- `Strategy.analyse_pattern` dispatch (lines 97-122): a recognized kind runs
its rule and yields the matched row indices; any other kind is reported to the
caller as an error (the source prints `Error: Pattern not recognised` and
produces no match list). -/
def analyse_pattern (s : List Bar) (kind : String) : Except PatternError (List ℕ) :=
  if kind = "hammer" then .ok (hammer s)
  else if kind = "inv_hammer" then .ok (inv_hammer s)
  else if kind = "bull_engulf" then .ok (bull_engulf s)
  else if kind = "piercing" then .ok (piercing s)
  else if kind = "morning" then .ok (morning s)
  else if kind = "soldiers" then .ok (soldiers s)
  else if kind = "hanging" then .ok (hanging s)
  else if kind = "shooting" then .ok (shooting s)
  else .error PatternError.unrecognizedPattern

/-- The Bullish Engulfing predicate exactly as the specification words it:
the short-body test compares the previous bar's body against the PREVIOUS
bar's `50 Body` band (`B₁ ≤ Q50₁`).  Written from the spec, to be compared
with `bullEngulfMask`. -/
def bullEngulfSpec (s : List Bar) (i : ℕ) : Bool :=
  if 1 ≤ i then
    let c0 := featureAt s i
    let c1 := featureAt s (i - 1)
    decide (c0.Price > c0.Open) && decide (c1.Open > c1.Price) &&
      decide (c1.Body ≤ c1.q50Body) &&
      decide (c0.Open < c1.Price) && decide (c0.Price > c1.Open)
  else false

/-- The Piercing Line predicate exactly as the specification words it:
the first long-body test compares the previous bar's body against the
PREVIOUS bar's `50 Body` band (`B₁ ≥ Q50₁`).  Written from the spec, to be
compared with `piercingMask`. -/
def piercingSpec (s : List Bar) (i : ℕ) : Bool :=
  if 1 ≤ i then
    let c0 := featureAt s i
    let c1 := featureAt s (i - 1)
    decide (c0.Price > c0.Open) && decide (c1.Open > c1.Price) &&
      decide (c1.Body ≥ c1.q50Body) && decide (c0.Body ≥ c0.q50Body) &&
      decide (c1.Price - c0.Open ≥ c0.q25Body) &&
      decide (c0.Price ≥ c1.Price + c1.Body / 2)
  else false

/-- The Morning Star predicate exactly as the specification words it:
the oldest bar's body is tested against THAT bar's `50 Body` band
(`B₂ ≥ Q50₂`) and the middle bar's body against the MIDDLE bar's `25 Body`
band (`B₁ ≤ Q25₁`).  Written from the spec, to be compared with
`morningMask`. -/
def morningSpec (s : List Bar) (i : ℕ) : Bool :=
  if 2 ≤ i then
    let c0 := featureAt s i
    let c1 := featureAt s (i - 1)
    let c2 := featureAt s (i - 2)
    decide (c0.Price > c0.Open) && decide (c2.Open > c2.Price) &&
      decide (c2.Body ≥ c2.q50Body) && decide (c0.Body ≥ c0.q50Body) &&
      decide (c1.Body ≤ c1.q25Body)
  else false

/-- Three-bar series separating `bullEngulfMask` from `bullEngulfSpec` at row 2. -/
def cexBull : List Bar := [⟨10, 12, 9, 11⟩, ⟨110, 111, 99, 100⟩, ⟨99, 112, 98, 111⟩]

/-- Two-bar series separating `piercingMask` from `piercingSpec` at row 1. -/
def cexPierce : List Bar := [⟨110, 111, 99, 100⟩, ⟨85, 111, 84, 110⟩]

/-- Four-bar series separating `morningMask` from `morningSpec` at row 3. -/
def cexMorning : List Bar :=
  [⟨10, 31, 9, 30⟩, ⟨110, 111, 99, 100⟩, ⟨50, 51, 49, 50⟩, ⟨100, 111, 99, 110⟩]

theorem mem_filter_range (p : ℕ → Bool) (n i : ℕ) :
    i ∈ (List.range n).filter p ↔ i < n ∧ p i = true := by
  rw [List.mem_filter, List.mem_range]

theorem getD_range_map {α : Type} (s : List α) (d : α) :
    (List.range s.length).map (fun i => s.getD i d) = s := by
  induction s with
  | nil => rfl
  | cons a t ih =>
    rw [List.length_cons, List.range_succ_eq_map, List.map_cons, List.map_map]
    exact congrArg (a :: ·) ih

theorem map_toBar_featurize (s : List Bar) : (featurize s).map toBar = s := by
  unfold featurize
  rw [List.map_map]
  have hfun : (toBar ∘ featureAt s) = fun i => s.getD i dBar := by
    funext i; rfl
  rw [hfun, getD_range_map]

/-- C8: feature-derivation idempotence — rerunning the derivation step on the
raw columns of an already-featured series reproduces the featured series, so
all derived columns (body, wicks, percentile bands, extremum flags) coincide
with those of the first run. -/
theorem featurize_idempotent (s : List Bar) :
    featurize ((featurize s).map toBar) = featurize s := by
  rw [map_toBar_featurize]

/-- C4: dispatch on any pattern kind outside the eight implemented rules
(in particular every declared-but-unimplemented catalogue name such as "doji")
reports `UnrecognizedPattern` to the caller; no match list, empty or partial,
is produced. -/
theorem analyse_pattern_unrecognized (s : List Bar) (kind : String)
    (h : kind ∉ implementedPatterns) :
    analyse_pattern s kind = Except.error PatternError.unrecognizedPattern := by
  simp only [implementedPatterns, List.mem_cons, List.not_mem_nil, or_false, not_or] at h
  obtain ⟨h1, h2, h3, h4, h5, h6, h7, h8⟩ := h
  simp [analyse_pattern, h1, h2, h3, h4, h5, h6, h7, h8]

/-- Witness for C4: requesting the declared-but-unimplemented kind "doji"
yields the `UnrecognizedPattern` error. -/
theorem analyse_pattern_unrecognized_witness :
    analyse_pattern [] "doji" = Except.error PatternError.unrecognizedPattern :=
  analyse_pattern_unrecognized [] "doji" (by decide)

/-- C7: boundary exclusion — whenever the extremum window of row `i` is
incomplete (`i < look_back` or `i + look_forward ≥ n`), both the local-minimum
and the local-maximum flag of row `i` are false; the condition is resolved
locally, never propagated as an error. -/
theorem localFlag_incomplete (closes : List ℚ) (look_back look_forward i : ℕ)
    (h : i < look_back ∨ closes.length ≤ i + look_forward) :
    localFlag closes look_back look_forward true i = false ∧
      localFlag closes look_back look_forward false i = false := by
  have hcond : ¬(look_back ≤ i ∧ i + look_forward < closes.length) := by
    rcases h with h | h
    · exact fun hc => absurd hc.1 (Nat.not_le_of_lt h)
    · exact fun hc => absurd hc.2 (Nat.not_lt_of_le h)
  constructor <;> simp [localFlag, asymRollingMinmax, hcond]

/-- Ten-bar close series used to witness the boundary-exclusion claim. -/
def closes10 : List ℚ := [1, 2, 3, 4, 5, 6, 7, 8, 9, 10]

/-- Witness for C7: with `look_back = 3`, `look_forward = 1` on a 10-bar
series, rows 0-2 and 9 are flagged false for both extrema. -/
theorem localFlag_incomplete_witness :
    (localFlag closes10 3 1 true 0 = false ∧ localFlag closes10 3 1 false 0 = false) ∧
      (localFlag closes10 3 1 true 1 = false ∧ localFlag closes10 3 1 false 1 = false) ∧
      (localFlag closes10 3 1 true 2 = false ∧ localFlag closes10 3 1 false 2 = false) ∧
      (localFlag closes10 3 1 true 9 = false ∧ localFlag closes10 3 1 false 9 = false) :=
  ⟨localFlag_incomplete closes10 3 1 0 (Or.inl (by decide)),
    localFlag_incomplete closes10 3 1 1 (Or.inl (by decide)),
    localFlag_incomplete closes10 3 1 2 (Or.inl (by decide)),
    localFlag_incomplete closes10 3 1 9 (Or.inr (by decide))⟩

/-- C5: Hammer rule — row `i` is reported as a Hammer match iff its lower wick
is at least 1.5 times its body, its body is at or below its expanding
25th-percentile band, and it is flagged as a local minimum. -/
theorem hammer_iff (s : List Bar) (i : ℕ) (h : i < s.length) :
    i ∈ hammer s ↔
      ((3/2 : ℚ) * (featureAt s i).Body ≤ (featureAt s i).LWick ∧
        (featureAt s i).Body ≤ (featureAt s i).q25Body ∧
        (featureAt s i).Min = true) := by
  unfold hammer hammerMask
  rw [mem_filter_range]
  simp [h, and_assoc]

/-- Five-bar series realizing the spec's Hammer scenario at row 3: the bar has
`open=100, close=101, low=90, high=101.5`, its body 1 lies below its expanding
25th-percentile band, and its close is the window minimum. -/
def exHammer : List Bar :=
  [⟨112, 112, 102, 102⟩, ⟨112, 112, 102, 102⟩, ⟨112, 112, 102, 102⟩,
    ⟨100, 203/2, 90, 101⟩, ⟨105, 105, 105, 105⟩]

unseal Rat.add Rat.mul Rat.sub Rat.inv in
/-- Witness for C5: the scenario bar is reported as a Hammer match. -/
theorem hammer_iff_witness : 3 ∈ hammer exHammer :=
  (hammer_iff exHammer 3 (by decide)).mpr (by decide)

unseal Rat.add Rat.mul Rat.sub Rat.inv in
/-- C1 counterexample: on `cexBull` row 2 is reported as a Bullish Engulfing
match although the spec's predicate — whose short-body test reads the previous
bar's band `Q50₁` — is false there, refuting the claimed equivalence. -/
theorem bull_engulf_spec_cex :
    2 ∈ bull_engulf cexBull ∧ bullEngulfSpec cexBull 2 = false := by
  constructor <;> decide

/-- C1 (amended): Bullish Engulfing rule — row `i` (with a preceding bar) is
reported as a match iff `close₀ > open₀`, `open₁ > close₁`, the previous bar's
body is at or below the CURRENT bar's expanding 50th-percentile band
(`B₁ ≤ Q50₀`), `open₀ < close₁` and `close₀ > open₁`. -/
theorem bull_engulf_iff (s : List Bar) (i : ℕ) (h1 : 1 ≤ i) (h2 : i < s.length) :
    i ∈ bull_engulf s ↔
      ((featureAt s i).Open < (featureAt s i).Price ∧
        (featureAt s (i - 1)).Price < (featureAt s (i - 1)).Open ∧
        (featureAt s (i - 1)).Body ≤ (featureAt s i).q50Body ∧
        (featureAt s i).Open < (featureAt s (i - 1)).Price ∧
        (featureAt s (i - 1)).Open < (featureAt s i).Price) := by
  unfold bull_engulf bullEngulfMask
  rw [mem_filter_range]
  simp [h1, h2, and_assoc]

/-- The spec's Bullish Engulfing scenario: bar 0 `open=110, close=100` (red),
bar 1 `open=95, close=120` (green, engulfing). -/
def exEngulf : List Bar := [⟨110, 111, 99, 100⟩, ⟨95, 121, 94, 120⟩]

unseal Rat.add Rat.mul Rat.sub Rat.inv in
/-- Witness for C1: the scenario's second bar is reported as a match. -/
theorem bull_engulf_iff_witness : 1 ∈ bull_engulf exEngulf :=
  (bull_engulf_iff exEngulf 1 (by decide) (by decide)).mpr (by decide)

unseal Rat.add Rat.mul Rat.sub Rat.inv in
/-- C2 counterexample: on `cexPierce` the spec's predicate — whose first
long-body test reads the previous bar's band `Q50₁` — holds at row 1, yet the
code does not report that row as a Piercing Line match, refuting the claimed
equivalence. -/
theorem piercing_spec_cex :
    piercingSpec cexPierce 1 = true ∧ 1 ∉ piercing cexPierce := by
  constructor <;> decide

/-- C2 (amended): Piercing Line rule — row `i` (with a preceding bar) is
reported as a match iff `close₀ > open₀`, `open₁ > close₁`, the previous bar's
body is at or above the CURRENT bar's 50th-percentile band (`B₁ ≥ Q50₀`), the
current bar's body is at or above it as well (`B₀ ≥ Q50₀`), the gap-down
`close₁ - open₀` is at least the current bar's 25th-percentile band `Q25₀`,
and `close₀ ≥ close₁ + B₁/2`. -/
theorem piercing_iff (s : List Bar) (i : ℕ) (h1 : 1 ≤ i) (h2 : i < s.length) :
    i ∈ piercing s ↔
      ((featureAt s i).Open < (featureAt s i).Price ∧
        (featureAt s (i - 1)).Price < (featureAt s (i - 1)).Open ∧
        (featureAt s i).q50Body ≤ (featureAt s (i - 1)).Body ∧
        (featureAt s i).q50Body ≤ (featureAt s i).Body ∧
        (featureAt s i).q25Body ≤ (featureAt s (i - 1)).Price - (featureAt s i).Open ∧
        (featureAt s (i - 1)).Price + (featureAt s (i - 1)).Body / 2 ≤ (featureAt s i).Price) := by
  unfold piercing piercingMask
  rw [mem_filter_range]
  simp [h1, h2, and_assoc]

/-- Three-bar series whose last bar forms a Piercing Line under the code's
predicate: a short first bar, a long red bar, then a long green bar opening at
a gap down and closing above the red bar's mid-body. -/
def exPierce : List Bar := [⟨50, 51, 49, 50⟩, ⟨110, 111, 99, 100⟩, ⟨80, 111, 79, 110⟩]

unseal Rat.add Rat.mul Rat.sub Rat.inv in
/-- Witness for C2: row 2 of `exPierce` is reported as a Piercing Line match. -/
theorem piercing_iff_witness : 2 ∈ piercing exPierce :=
  (piercing_iff exPierce 2 (by decide) (by decide)).mpr (by decide)

unseal Rat.add Rat.mul Rat.sub Rat.inv in
/-- C3 counterexample: on `cexMorning` row 3 is reported as a Morning Star
match although the spec's predicate — which reads the bands `Q50₂` and `Q25₁`
at the older bars — is false there, refuting the claimed equivalence. -/
theorem morning_spec_cex :
    3 ∈ morning cexMorning ∧ morningSpec cexMorning 3 = false := by
  constructor <;> decide

/-- C3 (amended): Morning Star rule — row `i` (with two preceding bars) is
reported as a match iff `close₀ > open₀`, `open₂ > close₂`, the oldest bar's
body is at or above the CURRENT bar's 50th-percentile band (`B₂ ≥ Q50₀`), the
current bar's body is at or above it as well (`B₀ ≥ Q50₀`), and the middle
bar's body is at or below the CURRENT bar's 25th-percentile band
(`B₁ ≤ Q25₀`). -/
theorem morning_iff (s : List Bar) (i : ℕ) (h1 : 2 ≤ i) (h2 : i < s.length) :
    i ∈ morning s ↔
      ((featureAt s i).Open < (featureAt s i).Price ∧
        (featureAt s (i - 2)).Price < (featureAt s (i - 2)).Open ∧
        (featureAt s i).q50Body ≤ (featureAt s (i - 2)).Body ∧
        (featureAt s i).q50Body ≤ (featureAt s i).Body ∧
        (featureAt s (i - 1)).Body ≤ (featureAt s i).q25Body) := by
  unfold morning morningMask
  rw [mem_filter_range]
  simp [h1, h2, and_assoc]

unseal Rat.add Rat.mul Rat.sub Rat.inv in
/-- Witness for C3: row 3 of `cexMorning` is reported as a Morning Star match
(under the amended, current-bar-band reading). -/
theorem morning_iff_witness : 3 ∈ morning cexMorning :=
  (morning_iff cexMorning 3 (by decide) (by decide)).mpr (by decide)

/-- Five identical doji-like bars (`open = close = 1`, `low = 0`): every close
in any window is the same value. -/
def exFlat : List Bar := List.replicate 5 ⟨1, 1, 0, 1⟩

unseal Rat.add Rat.mul Rat.sub Rat.inv in
/-- C10: the `Min` and `Max` flags are not mutually exclusive — on `exFlat`
(whose full window of closes is constant) row 3 is flagged both `Min` and
`Max`, and that single bar is simultaneously reported as a Hammer match (which
needs `Min`) and as a Hanging Man match (which needs `Max`). -/
theorem min_max_not_exclusive :
    (featureAt exFlat 3).Min = true ∧ (featureAt exFlat 3).Max = true ∧
      3 ∈ hammer exFlat ∧ 3 ∈ hanging exFlat := by
  refine ⟨by decide, by decide, by decide, by decide⟩

theorem getD_of_lt (l : List ℚ) (n : ℕ) (h : n < l.length) : l.getD n 0 = l[n] := by
  simp [List.getD_eq_getElem?_getD, List.getElem?_eq_getElem h]

theorem window_length (closes : List ℚ) (lb lf i : ℕ) (h1 : lb ≤ i)
    (h2 : i + lf < closes.length) :
    ((closes.drop (i - lb)).take (lb + lf + 1)).length = lb + lf + 1 := by
  rw [List.length_take, List.length_drop]
  omega

theorem window_getElem (closes : List ℚ) (lb lf i t : ℕ) (h1 : lb ≤ i)
    (h2 : i + lf < closes.length)
    (hw : t < ((closes.drop (i - lb)).take (lb + lf + 1)).length) :
    ((closes.drop (i - lb)).take (lb + lf + 1))[t] = closes.getD (i - lb + t) 0 := by
  rw [List.length_take, List.length_drop] at hw
  have hb : i - lb + t < closes.length := by omega
  rw [List.getElem_take, List.getElem_drop, getD_of_lt closes _ hb]

theorem localFlag_min_iff (closes : List ℚ) (lb lf i : ℕ) (h1 : lb ≤ i)
    (h2 : i + lf < closes.length) :
    localFlag closes lb lf true i = true ↔
      ∀ j, j ≤ i + lf → i - lb ≤ j → closes.getD i 0 ≤ closes.getD j 0 := by
  have hwlen := window_length closes lb lf i h1 h2
  obtain ⟨m, hm⟩ : ∃ m, ((closes.drop (i - lb)).take (lb + lf + 1)).min? = some m := by
    cases hmn : ((closes.drop (i - lb)).take (lb + lf + 1)).min? with
    | none =>
      rw [List.min?_eq_none_iff.mp hmn] at hwlen
      simp at hwlen
    | some m => exact ⟨m, rfl⟩
  have hasym : asymRollingMinmax closes lb lf true i =
      ((closes.drop (i - lb)).take (lb + lf + 1)).min? := by
    unfold asymRollingMinmax
    rw [if_pos ⟨h1, h2⟩]
    rfl
  have hflag : localFlag closes lb lf true i = decide (closes.getD i 0 = m) := by
    unfold localFlag
    rw [hasym, hm]
  have hmin_le : ∀ b ∈ (closes.drop (i - lb)).take (lb + lf + 1), m ≤ b :=
    (List.le_min?_iff (fun a b c => le_min_iff) hm).mp (le_refl m)
  have hmem_i : closes.getD i 0 ∈ (closes.drop (i - lb)).take (lb + lf + 1) := by
    rw [List.mem_iff_getElem]
    refine ⟨lb, by rw [hwlen]; omega, ?_⟩
    rw [window_getElem closes lb lf i lb h1 h2 (by rw [hwlen]; omega)]
    congr 1
    omega
  constructor
  · intro hf j hj1 hj2
    rw [hflag, decide_eq_true_eq] at hf
    have hjmem : closes.getD j 0 ∈ (closes.drop (i - lb)).take (lb + lf + 1) := by
      rw [List.mem_iff_getElem]
      refine ⟨j - (i - lb), by rw [hwlen]; omega, ?_⟩
      rw [window_getElem closes lb lf i (j - (i - lb)) h1 h2 (by rw [hwlen]; omega)]
      congr 1
      omega
    rw [hf]
    exact hmin_le _ hjmem
  · intro hall
    rw [hflag, decide_eq_true_eq]
    obtain ⟨t, htlt, htm⟩ := List.mem_iff_getElem.mp
      (List.min?_mem (fun a b => min_choice a b) hm)
    have hm_eq : m = closes.getD (i - lb + t) 0 := by
      rw [← htm, window_getElem closes lb lf i t h1 h2 htlt]
    have htlt' : t < lb + lf + 1 := by rw [hwlen] at htlt; exact htlt
    have hle1 : closes.getD i 0 ≤ m := by
      rw [hm_eq]
      exact hall (i - lb + t) (by omega) (by omega)
    exact le_antisymm hle1 (hmin_le _ hmem_i)

theorem localFlag_max_iff (closes : List ℚ) (lb lf i : ℕ) (h1 : lb ≤ i)
    (h2 : i + lf < closes.length) :
    localFlag closes lb lf false i = true ↔
      ∀ j, j ≤ i + lf → i - lb ≤ j → closes.getD j 0 ≤ closes.getD i 0 := by
  have hwlen := window_length closes lb lf i h1 h2
  obtain ⟨m, hm⟩ : ∃ m, ((closes.drop (i - lb)).take (lb + lf + 1)).max? = some m := by
    cases hmn : ((closes.drop (i - lb)).take (lb + lf + 1)).max? with
    | none =>
      rw [List.max?_eq_none_iff.mp hmn] at hwlen
      simp at hwlen
    | some m => exact ⟨m, rfl⟩
  have hasym : asymRollingMinmax closes lb lf false i =
      ((closes.drop (i - lb)).take (lb + lf + 1)).max? := by
    unfold asymRollingMinmax
    rw [if_pos ⟨h1, h2⟩]
    rfl
  have hflag : localFlag closes lb lf false i = decide (closes.getD i 0 = m) := by
    unfold localFlag
    rw [hasym, hm]
  have hle_max : ∀ b ∈ (closes.drop (i - lb)).take (lb + lf + 1), b ≤ m :=
    (List.max?_le_iff (fun a b c => max_le_iff) hm).mp (le_refl m)
  have hmem_i : closes.getD i 0 ∈ (closes.drop (i - lb)).take (lb + lf + 1) := by
    rw [List.mem_iff_getElem]
    refine ⟨lb, by rw [hwlen]; omega, ?_⟩
    rw [window_getElem closes lb lf i lb h1 h2 (by rw [hwlen]; omega)]
    congr 1
    omega
  constructor
  · intro hf j hj1 hj2
    rw [hflag, decide_eq_true_eq] at hf
    have hjmem : closes.getD j 0 ∈ (closes.drop (i - lb)).take (lb + lf + 1) := by
      rw [List.mem_iff_getElem]
      refine ⟨j - (i - lb), by rw [hwlen]; omega, ?_⟩
      rw [window_getElem closes lb lf i (j - (i - lb)) h1 h2 (by rw [hwlen]; omega)]
      congr 1
      omega
    rw [hf]
    exact hle_max _ hjmem
  · intro hall
    rw [hflag, decide_eq_true_eq]
    obtain ⟨t, htlt, htm⟩ := List.mem_iff_getElem.mp
      (List.max?_mem (fun a b => max_choice a b) hm)
    have hm_eq : m = closes.getD (i - lb + t) 0 := by
      rw [← htm, window_getElem closes lb lf i t h1 h2 htlt]
    have htlt' : t < lb + lf + 1 := by rw [hwlen] at htlt; exact htlt
    have hle1 : m ≤ closes.getD i 0 := by
      rw [hm_eq]
      exact hall (i - lb + t) (by omega) (by omega)
    exact le_antisymm (hle_max _ hmem_i) hle1

/-- C6: tie-inclusive extrema — for a row whose window
`[i - look_back, i + look_forward]` lies fully inside the series, the
local-minimum (resp. local-maximum) flag is true exactly when the row's close
is a minimum (resp. maximum) of the closes over that window, so every bar tied
at the extreme value is flagged. -/
theorem extrema_tie_inclusive (closes : List ℚ) (look_back look_forward i : ℕ)
    (h1 : look_back ≤ i) (h2 : i + look_forward < closes.length) :
    (localFlag closes look_back look_forward true i = true ↔
      ∀ j, j ≤ i + look_forward → i - look_back ≤ j →
        closes.getD i 0 ≤ closes.getD j 0) ∧
    (localFlag closes look_back look_forward false i = true ↔
      ∀ j, j ≤ i + look_forward → i - look_back ≤ j →
        closes.getD j 0 ≤ closes.getD i 0) :=
  ⟨localFlag_min_iff closes look_back look_forward i h1 h2,
    localFlag_max_iff closes look_back look_forward i h1 h2⟩

/-- The spec's tie scenario closes. -/
def closes5 : List ℚ := [5, 3, 3, 3, 5]

/-- Witness for C6: on closes `[5,3,3,3,5]` with `look_back = 1`,
`look_forward = 1`, the tied rows 1, 2 and 3 are all flagged as local minima. -/
theorem extrema_tie_inclusive_witness :
    localFlag closes5 1 1 true 1 = true ∧ localFlag closes5 1 1 true 2 = true ∧
      localFlag closes5 1 1 true 3 = true :=
  ⟨((extrema_tie_inclusive closes5 1 1 1 (by decide) (by decide)).1).mpr (by decide),
    ((extrema_tie_inclusive closes5 1 1 2 (by decide) (by decide)).1).mpr (by decide),
    ((extrema_tie_inclusive closes5 1 1 3 (by decide) (by decide)).1).mpr (by decide)⟩

theorem getD_any_of_lt (l : List ℚ) (n : ℕ) (d : ℚ) (h : n < l.length) :
    l.getD n d = l[n] := by
  simp [List.getD_eq_getElem?_getD, List.getElem?_eq_getElem h]

theorem getD_of_le_length (l : List ℚ) (n : ℕ) (d : ℚ) (h : l.length ≤ n) :
    l.getD n d = d := by
  simp [List.getD_eq_getElem?_getD, List.getElem?_eq_none h]

theorem sorted_getD_mono (a : List ℚ) (ha : List.Sorted (· ≤ ·) a) (i j : ℕ)
    (hij : i ≤ j) (hj : j < a.length) : a.getD i 0 ≤ a.getD j 0 := by
  have hi : i < a.length := lt_of_le_of_lt hij hj
  rw [getD_of_lt a i hi, getD_of_lt a j hj]
  exact ha.rel_get_of_le (show (⟨i, hi⟩ : Fin a.length) ≤ ⟨j, hj⟩ from hij)

theorem interp_d_nonneg (a : List ℚ) (ha : List.Sorted (· ≤ ·) a) (k : ℕ) :
    0 ≤ a.getD (k + 1) (a.getD k 0) - a.getD k 0 := by
  rcases lt_or_le (k + 1) a.length with hk1 | hk1
  · rw [getD_any_of_lt a (k + 1) _ hk1, ← getD_of_lt a (k + 1) hk1]
    exact sub_nonneg.mpr (sorted_getD_mono a ha k (k + 1) (Nat.le_succ k) hk1)
  · rw [getD_of_le_length a (k + 1) _ hk1]
    simp

theorem interpAt_ge_left (a : List ℚ) (ha : List.Sorted (· ≤ ·) a) (x : ℚ)
    (hx : 0 ≤ x) : a.getD ⌊x⌋.toNat 0 ≤ interpAt a x := by
  show a.getD ⌊x⌋.toNat 0 ≤ a.getD ⌊x⌋.toNat 0 +
    (x - (⌊x⌋.toNat : ℚ)) * (a.getD (⌊x⌋.toNat + 1) (a.getD ⌊x⌋.toNat 0) - a.getD ⌊x⌋.toNat 0)
  have hfrac : (0 : ℚ) ≤ x - (⌊x⌋.toNat : ℚ) := by
    have h1 : ((⌊x⌋.toNat : ℤ) : ℚ) ≤ x := by
      rw [Int.toNat_of_nonneg (Int.floor_nonneg.mpr hx)]
      exact Int.floor_le x
    push_cast at h1 ⊢
    linarith
  have hd := interp_d_nonneg a ha ⌊x⌋.toNat
  nlinarith [mul_nonneg hfrac hd]

theorem interpAt_le_right (a : List ℚ) (ha : List.Sorted (· ≤ ·) a) (x : ℚ)
    (hx : 0 ≤ x) : interpAt a x ≤ a.getD (⌊x⌋.toNat + 1) (a.getD ⌊x⌋.toNat 0) := by
  show a.getD ⌊x⌋.toNat 0 +
      (x - (⌊x⌋.toNat : ℚ)) * (a.getD (⌊x⌋.toNat + 1) (a.getD ⌊x⌋.toNat 0) - a.getD ⌊x⌋.toNat 0) ≤
    a.getD (⌊x⌋.toNat + 1) (a.getD ⌊x⌋.toNat 0)
  have hfrac : x - (⌊x⌋.toNat : ℚ) ≤ 1 := by
    have h1 : x < ((⌊x⌋.toNat : ℤ) : ℚ) + 1 := by
      rw [Int.toNat_of_nonneg (Int.floor_nonneg.mpr hx)]
      exact Int.lt_floor_add_one x
    push_cast at h1 ⊢
    linarith
  have hd := interp_d_nonneg a ha ⌊x⌋.toNat
  nlinarith [mul_le_of_le_one_left hd hfrac]

theorem interpAt_mono (a : List ℚ) (ha : List.Sorted (· ≤ ·) a) (x y : ℚ)
    (hx : 0 ≤ x) (hxy : x ≤ y) (hy : y ≤ (a.length : ℚ) - 1) :
    interpAt a x ≤ interpAt a y := by
  have hy0 : 0 ≤ y := hx.trans hxy
  have hn : 1 ≤ a.length := by
    have h0 : (0 : ℚ) ≤ (a.length : ℚ) - 1 := hx.trans (hxy.trans hy)
    have h1 : (1 : ℚ) ≤ (a.length : ℚ) := by linarith
    exact_mod_cast h1
  have hkx_cast : ((⌊x⌋.toNat : ℤ) : ℚ) ≤ x := by
    rw [Int.toNat_of_nonneg (Int.floor_nonneg.mpr hx)]
    exact Int.floor_le x
  have hky_cast : ((⌊y⌋.toNat : ℤ) : ℚ) ≤ y := by
    rw [Int.toNat_of_nonneg (Int.floor_nonneg.mpr hy0)]
    exact Int.floor_le y
  have hky_lt : ⌊y⌋.toNat < a.length := by
    have hfl : (⌊y⌋ : ℚ) ≤ (a.length : ℚ) - 1 := (Int.floor_le y).trans hy
    have hfl2 : ⌊y⌋ ≤ (a.length : ℤ) - 1 := by exact_mod_cast hfl
    omega
  have hkx_lt : ⌊x⌋.toNat < a.length := by
    have hfl : (⌊x⌋ : ℚ) ≤ (a.length : ℚ) - 1 := (Int.floor_le x).trans (hxy.trans hy)
    have hfl2 : ⌊x⌋ ≤ (a.length : ℤ) - 1 := by exact_mod_cast hfl
    omega
  have hkk : ⌊x⌋.toNat ≤ ⌊y⌋.toNat := Int.toNat_le_toNat (Int.floor_le_floor hxy)
  rcases eq_or_lt_of_le hkk with heq | hlt
  · have hxform : interpAt a x = a.getD ⌊x⌋.toNat 0 + (x - (⌊x⌋.toNat : ℚ)) *
        (a.getD (⌊x⌋.toNat + 1) (a.getD ⌊x⌋.toNat 0) - a.getD ⌊x⌋.toNat 0) := rfl
    have hyform : interpAt a y = a.getD ⌊y⌋.toNat 0 + (y - (⌊y⌋.toNat : ℚ)) *
        (a.getD (⌊y⌋.toNat + 1) (a.getD ⌊y⌋.toNat 0) - a.getD ⌊y⌋.toNat 0) := rfl
    rw [hxform, hyform, ← heq]
    have hd := interp_d_nonneg a ha ⌊x⌋.toNat
    have hsub : x - (⌊x⌋.toNat : ℚ) ≤ y - (⌊x⌋.toNat : ℚ) := by linarith
    exact add_le_add_left (mul_le_mul_of_nonneg_right hsub hd) _
  · have hup := interpAt_le_right a ha x hx
    have hlow := interpAt_ge_left a ha y hy0
    have hkx1_lt : ⌊x⌋.toNat + 1 < a.length := lt_of_le_of_lt hlt hky_lt
    calc interpAt a x ≤ a.getD (⌊x⌋.toNat + 1) (a.getD ⌊x⌋.toNat 0) := hup
      _ = a.getD (⌊x⌋.toNat + 1) 0 := by
          rw [getD_any_of_lt a _ _ hkx1_lt, getD_of_lt a _ hkx1_lt]
      _ ≤ a.getD ⌊y⌋.toNat 0 := sorted_getD_mono a ha _ _ hlt hky_lt
      _ ≤ interpAt a y := hlow

theorem linQuantile_mono (xs : List ℚ) (p q : ℚ) (hp : 0 ≤ p) (hpq : p ≤ q)
    (hq : q ≤ 1) (hne : xs ≠ []) : linQuantile xs p ≤ linQuantile xs q := by
  unfold linQuantile
  have hs : List.Sorted (· ≤ ·) (List.insertionSort (· ≤ ·) xs) :=
    List.sorted_insertionSort (· ≤ ·) xs
  have hlen : (List.insertionSort (· ≤ ·) xs).length = xs.length :=
    List.length_insertionSort (· ≤ ·) xs
  have hn : 1 ≤ xs.length := List.length_pos.mpr hne
  have hsub : (0 : ℚ) ≤ ((List.insertionSort (· ≤ ·) xs).length : ℚ) - 1 := by
    rw [hlen]
    have h1 : (1 : ℚ) ≤ (xs.length : ℚ) := by exact_mod_cast hn
    linarith
  apply interpAt_mono _ hs
  · exact mul_nonneg hp hsub
  · exact mul_le_mul_of_nonneg_right hpq hsub
  · exact mul_le_of_le_one_left hsub hq

/-- C9: percentile-band monotonicity — at every valid row index, the expanding
25th-percentile band of the body is at most the expanding 50th-percentile band,
both computed by sorting the prefix of bodies and interpolating linearly at
rank `(n-1)·p`. -/
theorem q25_le_q50 (s : List Bar) (i : ℕ) (h : i < s.length) :
    (featureAt s i).q25Body ≤ (featureAt s i).q50Body := by
  show expandingQuantile (s.map mkBody) (1/4) i ≤ expandingQuantile (s.map mkBody) (1/2) i
  unfold expandingQuantile
  apply linQuantile_mono _ _ _ (by norm_num) (by norm_num) (by norm_num)
  apply List.ne_nil_of_length_pos
  rw [List.length_take, List.length_map]
  omega

unseal Rat.add Rat.mul Rat.sub Rat.inv in
/-- Witness for C9: on the hammer scenario series, row 3's bands satisfy
`q25_body ≤ q50_body`. -/
theorem q25_le_q50_witness :
    (featureAt exHammer 3).q25Body ≤ (featureAt exHammer 3).q50Body :=
  q25_le_q50 exHammer 3 (by decide)
